import Mathlib

/-!
Verification of the SmartWatch3D world simulator, UI navigation and
procedural texture generator (src/SmartWatch3D/Main.cpp).

Floating-point state (`float`/`double` in the source) is embedded as exact
rational arithmetic over `ℚ`; C++ `int` fields are embedded as `ℤ`.  The
call to `rand()` inside `updateHeartRate` is modelled by an explicit input
parameter carrying the value the C library would return.
-/

namespace SmartWatch

/-! Constants from Main.cpp lines 71-77. -/

def GROUND_SEGMENT_LENGTH : ℚ := 20

def NUM_GROUND_SEGMENTS : ℕ := 5

/-! Heart-rate simulation state (Main.cpp globals, lines 97-100). -/

structure HRState where
  bpm : ℚ
  targetBpm : ℚ
  ekgOffset : ℚ
  ekgScale : ℚ
deriving DecidableEq, Repr

/-- Initial heart-rate state: `bpm = 70`, `targetBpm = 70`, `ekgOffset = 0`,
`ekgScale = 1` (Main.cpp lines 97-100). -/
def hrInit : HRState := ⟨70, 70, 0, 1⟩

/-- Embedding of `updateHeartRate` (Main.cpp lines 1185-1201).  `randVal`
models the value returned by the `rand()` call in the non-running branch;
the source takes `rand() % 20`. -/
def updateHeartRate (s : HRState) (isRunning : Bool) (deltaTime : ℚ)
    (randVal : ℕ) : HRState :=
  let targetBpm : ℚ :=
    if isRunning then
      min (s.targetBpm + 30 * deltaTime) 220
    else
      max (s.targetBpm - 20 * deltaTime) (60 + ((randVal % 20 : ℕ) : ℚ))
  let bpm : ℚ := s.bpm + (targetBpm - s.bpm) * 2 * deltaTime
  let speed : ℚ := bpm / 60
  let ekgOffset0 : ℚ := s.ekgOffset + speed * deltaTime * (1/2)
  let ekgOffset : ℚ := if ekgOffset0 > 1 then ekgOffset0 - 1 else ekgOffset0
  let targetScale : ℚ := 60 / bpm
  let ekgScale : ℚ := s.ekgScale + (targetScale - s.ekgScale) * 2 * deltaTime
  ⟨bpm, targetBpm, ekgOffset, ekgScale⟩

/-- A finite sequence of `updateHeartRate` calls; each element is
`(isRunning, deltaTime, randVal)`. -/
def runHR (s : HRState) (calls : List (Bool × ℚ × ℕ)) : HRState :=
  calls.foldl (fun st c => updateHeartRate st c.1 c.2.1 c.2.2) s

/-! Battery simulation state (Main.cpp globals, lines 104-105). -/

structure BatteryState where
  batteryPercent : ℤ
  lastBatteryDrain : ℚ
deriving DecidableEq, Repr

/-- Embedding of `updateBattery` (Main.cpp lines 1203-1208). -/
def updateBattery (s : BatteryState) (currentTime : ℚ) : BatteryState :=
  if currentTime - s.lastBatteryDrain ≥ 10 ∧ s.batteryPercent > 0 then
    ⟨s.batteryPercent - 1, currentTime⟩
  else s

/-- A finite sequence of `updateBattery` calls at the given times. -/
def runBattery (s : BatteryState) (ts : List ℚ) : BatteryState :=
  ts.foldl updateBattery s

/-- Call times `1, 2, ..., n` seconds: one `updateBattery` call per second
of elapsed time (the frame loop calls it far more often; a denser schedule
only drains no slower). -/
def driveTimes (n : ℕ) : List ℚ :=
  (List.range n).map (fun k : ℕ => ((k : ℚ) + 1))

/-! Wall-clock state (Main.cpp globals, lines 91-94). -/

structure ClockState where
  hours : ℤ
  minutes : ℤ
  seconds : ℤ
  lastSecondTime : ℚ
deriving DecidableEq, Repr

/-- Embedding of `updateClock` (Main.cpp lines 1167-1183). -/
def updateClock (s : ClockState) (currentTime : ℚ) : ClockState :=
  if currentTime - s.lastSecondTime ≥ 1 then
    let seconds := s.seconds + 1
    if seconds ≥ 60 then
      let minutes := s.minutes + 1
      if minutes ≥ 60 then
        let hours := s.hours + 1
        if hours ≥ 24 then
          ⟨0, 0, 0, currentTime⟩
        else
          ⟨hours, 0, 0, currentTime⟩
      else
        ⟨s.hours, minutes, 0, currentTime⟩
    else
      ⟨s.hours, s.minutes, seconds, currentTime⟩
  else s

/-- Run `updateClock` over a list of elapsed-time increments, starting from
absolute time `now` (each call sees the accumulated absolute time, as the
frame loop passes `glfwGetTime()`). -/
def runClock (s : ClockState) (now : ℚ) : List ℚ → ClockState
  | [] => s
  | d :: ds => runClock (updateClock s (now + d)) (now + d) ds

/-- The clock fields are within their moduli: seconds and minutes in 0-59,
hours in 0-23. -/
abbrev ClockInRange (s : ClockState) : Prop :=
  0 ≤ s.seconds ∧ s.seconds < 60 ∧ 0 ≤ s.minutes ∧ s.minutes < 60 ∧
    0 ≤ s.hours ∧ s.hours < 24

/-- Total seconds since midnight represented by the clock fields. -/
def clockTotalSeconds (s : ClockState) : ℤ :=
  s.hours * 3600 + s.minutes * 60 + s.seconds

/-! Screen navigation (Main.cpp lines 1252-1424).  `currentScreen` is the
C++ `int` global (0 = clock, 1 = heart rate, 2 = battery). -/

/-- Embedding of `isPointInRect` (Main.cpp lines 1252-1254). -/
def isPointInRect (px py rx ry rw rh : ℚ) : Bool :=
  decide (px ≥ rx - rw) && decide (px ≤ rx + rw) &&
    decide (py ≥ ry - rh) && decide (py ≤ ry + rh)

/-- Normalized mouse coordinates as computed in each draw function:
`normMouseX = mouseX / screenWidth * 2 - 1`,
`normMouseY = -(mouseY / screenHeight * 2 - 1)`. -/
def normMouse (mx my sw sh : ℚ) : ℚ × ℚ :=
  (mx / sw * 2 - 1, -(my / sh * 2 - 1))

/-- Effect of `drawClockScreen` (Main.cpp lines 1256-1283) on
`currentScreen`: a click in the right-arrow rectangle (centre `(0.8, 0)`,
half-extent `0.1`) while in watch-view mode selects the heart-rate
screen. -/
def drawClockScreenNav (wvm clicked : Bool) (mx my sw sh : ℚ) (cur : ℤ) : ℤ :=
  if wvm && clicked then
    let n := normMouse mx my sw sh
    if isPointInRect n.1 n.2 0.8 0 0.1 0.1 then 1 else cur
  else cur

/-- Effect of `drawHeartRateScreen` (Main.cpp lines 1285-1331) on
`currentScreen`: the left-arrow check (centre `(-0.8, 0)`) runs first and
selects the clock screen, then the right-arrow check (centre `(0.8, 0)`)
selects the battery screen. -/
def drawHeartRateScreenNav (wvm clicked : Bool) (mx my sw sh : ℚ)
    (cur : ℤ) : ℤ :=
  if wvm && clicked then
    let n := normMouse mx my sw sh
    let cur1 := if isPointInRect n.1 n.2 (-0.8) 0 0.1 0.1 then 0 else cur
    let cur2 := if isPointInRect n.1 n.2 0.8 0 0.1 0.1 then 2 else cur1
    cur2
  else cur

/-- Effect of `drawBatteryScreen` (Main.cpp lines 1333-1391) on
`currentScreen`: a click in the left-arrow rectangle (centre `(-0.8, 0)`)
selects the heart-rate screen. -/
def drawBatteryScreenNav (wvm clicked : Bool) (mx my sw sh : ℚ)
    (cur : ℤ) : ℤ :=
  if wvm && clicked then
    let n := normMouse mx my sw sh
    if isPointInRect n.1 n.2 (-0.8) 0 0.1 0.1 then 1 else cur
  else cur

/-- Effect of the `switch (currentScreen)` dispatch in `renderWatchScreen`
(Main.cpp lines 1393-1424) on `currentScreen`: exactly one screen handler
runs per frame. -/
def renderWatchScreenNav (wvm clicked : Bool) (mx my sw sh : ℚ)
    (cur : ℤ) : ℤ :=
  if cur = 0 then drawClockScreenNav wvm clicked mx my sw sh cur
  else if cur = 1 then drawHeartRateScreenNav wvm clicked mx my sw sh cur
  else if cur = 2 then drawBatteryScreenNav wvm clicked mx my sw sh cur
  else cur

/-! Frame driver (Main.cpp lines 1755-1823), restricted to the state the
click-flag claims depend on. -/

structure FrameState where
  currentScreen : ℤ
  mouseClicked : Bool
deriving DecidableEq, Repr

structure FrameInput where
  watchViewMode : Bool
  mx : ℚ
  my : ℚ
  sw : ℚ
  sh : ℚ
  clicksQueued : ℕ
deriving DecidableEq, Repr

/-- One iteration of the frame loop as it affects `currentScreen` and
`mouseClicked`: `renderWatchScreen()` dispatches once on the current
screen (Main.cpp line 1783 and 1403-1413), then `mouseClicked = false`
runs unconditionally (line 1819), then `glfwPollEvents()` (line 1822)
delivers `clicksQueued` press events, each of which sets the flag to
`true` (mouse button callback, Main.cpp line 1100). -/
def frameStep (s : FrameState) (i : FrameInput) : FrameState :=
  let screen1 := renderWatchScreenNav i.watchViewMode s.mouseClicked
    i.mx i.my i.sw i.sh s.currentScreen
  let clicked1 := false
  let clicked2 := if i.clicksQueued > 0 then true else clicked1
  ⟨screen1, clicked2⟩

/-! Building Z wrapping in `renderScene` (Main.cpp lines 1575-1591). -/

/-- The first wrapping loop: `while (pos.z > 10.0f) pos.z -= N * L;`
with `N * L = NUM_GROUND_SEGMENTS * GROUND_SEGMENT_LENGTH = 100`. -/
def wrapDown (z : ℚ) : ℚ :=
  if z > 10 then wrapDown (z - 100) else z
termination_by (⌈z⌉ - 10).toNat
decreasing_by
  have h1 : (10 : ℤ) < ⌈z⌉ := by
    rw [Int.lt_ceil]; exact_mod_cast (by assumption : z > 10)
  have h2 : ⌈z - 100⌉ = ⌈z⌉ - 100 := by
    exact_mod_cast Int.ceil_sub_int z (100 : ℤ)
  omega

/-- The second wrapping loop: `while (pos.z < -N * L) pos.z += N * L;`. -/
def wrapUp (z : ℚ) : ℚ :=
  if z < -100 then wrapUp (z + 100) else z
termination_by (-100 - ⌊z⌋).toNat
decreasing_by
  have h1 : ⌊z⌋ < -100 := by
    rw [Int.floor_lt]; exact_mod_cast (by assumption : z < -100)
  have h2 : ⌊z + 100⌋ = ⌊z⌋ + 100 := by
    exact_mod_cast Int.floor_add_int z (100 : ℤ)
  omega

/-- Effective Z of a building after the scroll offset and the two wrapping
loops (Main.cpp lines 1577-1583). -/
def wrapBuildingZ (z groundOffset : ℚ) : ℚ :=
  wrapUp (wrapDown (z + groundOffset))

/-! Digit texture generation, `createDigitTexture` (Main.cpp lines
535-659).  The RGBA pixel buffer `data` is an `Array ℕ` of bytes of size
`width * height * 4`.  A raw store `data[i] = v` is modelled as a fallible
operation returning `none` when the index is outside the allocation
(undefined behaviour in the source); `setPixel` guards every store with
the bounds check from Main.cpp lines 551-559. -/

def charWidth : ℕ := 30

def charHeight : ℕ := 50

/-- An unchecked byte store into the pixel buffer; out-of-allocation
access is undefined behaviour, modelled as `none`. -/
def rawWrite (data : Array ℕ) (i : ℕ) (v : ℕ) : Option (Array ℕ) :=
  if h : i < data.size then some (data.set ⟨i, h⟩ v) else none

/-- Embedding of the `setPixel` lambda (Main.cpp lines 551-559): the
bounds check `0 ≤ x < width`, `0 ≤ y < height` guards the four byte
stores at flat index `(y * width + x) * 4`. -/
def setPixel (w h : ℕ) (data : Array ℕ) (x y : ℤ) (r g b : ℕ) :
    Option (Array ℕ) :=
  if 0 ≤ x ∧ x < (w : ℤ) ∧ 0 ≤ y ∧ y < (h : ℤ) then
    let idx := (y.toNat * w + x.toNat) * 4
    do
      let d1 ← rawWrite data idx r
      let d2 ← rawWrite d1 (idx + 1) g
      let d3 ← rawWrite d2 (idx + 2) b
      rawWrite d3 (idx + 3) 255
  else
    some data

/-- The seven-segment pattern table (Main.cpp lines 561-574). -/
def segTable : List (List Bool) :=
  [[true, true, true, false, true, true, true],
   [false, false, true, false, false, true, false],
   [true, false, true, true, true, false, true],
   [true, false, true, true, false, true, true],
   [false, true, true, true, false, true, false],
   [true, true, false, true, false, true, true],
   [true, true, false, true, true, true, true],
   [true, false, true, false, false, true, false],
   [true, true, true, true, true, true, true],
   [true, true, true, true, false, true, true],
   [false, false, false, false, false, false, false],
   [false, false, false, false, false, false, false]]

/-- Embedding of the `drawSegment` lambda (Main.cpp lines 576-618) for a
buffer of logical size `w × h`; `thick = 4`, `margin = 3`,
`segW = charWidth - 2 * margin`. -/
def drawSegment (w h : ℕ) (offsetX : ℤ) (seg : ℕ) (data : Array ℕ) :
    Option (Array ℕ) :=
  let thick := 4
  let margin := 3
  let segW := charWidth - 2 * margin
  match seg with
  | 0 =>
    (List.range thick).foldlM (fun d (t : ℕ) =>
      (List.range segW).foldlM (fun d2 (x : ℕ) =>
        setPixel w h d2 (offsetX + (margin : ℤ) + (x : ℤ))
          ((h : ℤ) - (margin : ℤ) - (t : ℤ)) 200 230 255) d) data
  | 1 =>
    (List.range thick).foldlM (fun d (t : ℕ) =>
      (List.range (h - margin - (h / 2 + margin / 2))).foldlM
        (fun d2 (y : ℕ) =>
          setPixel w h d2 (offsetX + (margin : ℤ) + (t : ℤ))
            ((h / 2 + margin / 2 : ℕ) + (y : ℤ)) 200 230 255) d) data
  | 2 =>
    (List.range thick).foldlM (fun d (t : ℕ) =>
      (List.range (h - margin - (h / 2 + margin / 2))).foldlM
        (fun d2 (y : ℕ) =>
          setPixel w h d2 (offsetX + (charWidth : ℤ) - (margin : ℤ) - (t : ℤ))
            ((h / 2 + margin / 2 : ℕ) + (y : ℤ)) 200 230 255) d) data
  | 3 =>
    (List.range thick).foldlM (fun d (t : ℕ) =>
      (List.range segW).foldlM (fun d2 (x : ℕ) =>
        setPixel w h d2 (offsetX + (margin : ℤ) + (x : ℤ))
          ((h / 2 : ℕ) + (t : ℤ) - ((thick / 2 : ℕ) : ℤ)) 200 230 255) d) data
  | 4 =>
    (List.range thick).foldlM (fun d (t : ℕ) =>
      (List.range (h / 2 - margin / 2 - margin)).foldlM (fun d2 (y : ℕ) =>
        setPixel w h d2 (offsetX + (margin : ℤ) + (t : ℤ))
          ((margin : ℤ) + (y : ℤ)) 200 230 255) d) data
  | 5 =>
    (List.range thick).foldlM (fun d (t : ℕ) =>
      (List.range (h / 2 - margin / 2 - margin)).foldlM (fun d2 (y : ℕ) =>
        setPixel w h d2 (offsetX + (charWidth : ℤ) - (margin : ℤ) - (t : ℤ))
          ((margin : ℤ) + (y : ℤ)) 200 230 255) d) data
  | 6 =>
    (List.range thick).foldlM (fun d (t : ℕ) =>
      (List.range segW).foldlM (fun d2 (x : ℕ) =>
        setPixel w h d2 (offsetX + (margin : ℤ) + (x : ℤ))
          ((margin : ℤ) + (t : ℤ)) 200 230 255) d) data
  | _ => some data

/-- Embedding of the `drawColon` lambda (Main.cpp lines 620-629):
`dotSize = 4`, two dots at heights `3h/4` and `h/4`, with `dx` and `dy`
running from `-dotSize/2` to `dotSize/2` inclusive. -/
def drawColon (w h : ℕ) (offsetX : ℤ) (data : Array ℕ) :
    Option (Array ℕ) :=
  let dotSize : ℕ := 4
  let cx : ℤ := offsetX + charWidth / 2
  (List.range (dotSize + 1)).foldlM (fun d (dy : ℕ) =>
    (List.range (dotSize + 1)).foldlM (fun d2 (dx : ℕ) =>
      do
        let e1 ← setPixel w h d2 (cx + (dx : ℤ) - ((dotSize / 2 : ℕ) : ℤ))
          ((h * 3 / 4 : ℕ) + (dy : ℤ) - ((dotSize / 2 : ℕ) : ℤ)) 200 230 255
        setPixel w h e1 (cx + (dx : ℤ) - ((dotSize / 2 : ℕ) : ℤ))
          ((h * 1 / 4 : ℕ) + (dy : ℤ) - ((dotSize / 2 : ℕ) : ℤ)) 200 230 255)
      d) data

/-- Embedding of the pixel-buffer part of `createDigitTexture` (Main.cpp
lines 535-647): allocate a zeroed `width × height` RGBA buffer with
`width = charWidth * len`, then for each character draw either a colon, a
seven-segment digit, or nothing. -/
def createDigitImage (digitStr : List Char) : Option (Array ℕ) :=
  let len := digitStr.length
  let width := charWidth * len
  let height := charHeight
  let data : Array ℕ := Array.mkArray (width * height * 4) 0
  (List.range len).foldlM (fun d i =>
    let c := digitStr.getD i ' '
    let offsetX : ℤ := (i : ℤ) * charWidth
    if c = ':' then
      drawColon width height offsetX d
    else if '0' ≤ c ∧ c ≤ '9' then
      let digit := c.toNat - Char.toNat '0'
      (List.range 7).foldlM (fun d2 s =>
        if ((segTable.getD digit []).getD s false) then
          drawSegment width height offsetX s d2
        else
          some d2) d
    else
      some d) data

/-! Theorems. -/

theorem wrapDown_le_ten (z : ℚ) : wrapDown z ≤ 10 := by
  induction z using wrapDown.induct with
  | case1 z h ih =>
    rw [wrapDown, if_pos h]
    exact ih
  | case2 z h =>
    rw [wrapDown, if_neg h]
    exact not_lt.mp h

theorem wrapUp_ge_neg_hundred (z : ℚ) : -100 ≤ wrapUp z := by
  induction z using wrapUp.induct with
  | case1 z h ih =>
    rw [wrapUp, if_pos h]
    exact ih
  | case2 z h =>
    rw [wrapUp, if_neg h]
    exact not_lt.mp h

theorem wrapUp_le_of_le (z : ℚ) (h : z ≤ 10) : wrapUp z ≤ 10 := by
  induction z using wrapUp.induct with
  | case1 z hlt ih =>
    rw [wrapUp, if_pos hlt]
    exact ih (by linarith)
  | case2 z hge =>
    rw [wrapUp, if_neg hge]
    exact h

/-- C7: for every building Z coordinate and every ground-scroll offset,
the effective Z after the two wrapping loops in `renderScene` lies in
`[-(NUM_GROUND_SEGMENTS * GROUND_SEGMENT_LENGTH), 10] = [-100, 10]`. -/
theorem building_wrap_in_window (z off : ℚ) :
    -((NUM_GROUND_SEGMENTS : ℚ) * GROUND_SEGMENT_LENGTH) ≤
        wrapBuildingZ z off ∧
      wrapBuildingZ z off ≤ 10 := by
  have hc : ((NUM_GROUND_SEGMENTS : ℚ) * GROUND_SEGMENT_LENGTH) = 100 := by
    norm_num [NUM_GROUND_SEGMENTS, GROUND_SEGMENT_LENGTH]
  rw [hc]
  unfold wrapBuildingZ
  exact ⟨wrapUp_ge_neg_hundred _, wrapUp_le_of_le _ (wrapDown_le_ten _)⟩

theorem arrows_disjoint (px py : ℚ)
    (hL : isPointInRect px py (-0.8) 0 0.1 0.1 = true)
    (hR : isPointInRect px py 0.8 0 0.1 0.1 = true) : False := by
  simp only [isPointInRect, Bool.and_eq_true, decide_eq_true_eq] at hL hR
  have h1 : px ≤ -0.8 + 0.1 := hL.1.1.2
  have h2 : 0.8 - 0.1 ≤ px := hR.1.1.1
  norm_num at h1 h2
  linarith

/-- C5: the screen-navigation state machine.  From the clock screen (0),
only a watch-view-mode click inside the right-arrow rectangle transitions,
and it goes to the heart-rate screen (1); from the heart-rate screen a
left-arrow click goes to the clock screen and a right-arrow click goes to
the battery screen (2); from the battery screen a left-arrow click goes to
the heart-rate screen; every other click, and every click outside
watch-view mode, leaves the screen unchanged. -/
theorem nav_state_machine (wvm clicked : Bool) (mx my sw sh : ℚ) :
    (renderWatchScreenNav wvm clicked mx my sw sh 0 =
      if wvm && clicked && isPointInRect (normMouse mx my sw sh).1
          (normMouse mx my sw sh).2 0.8 0 0.1 0.1 then 1 else 0) ∧
    (renderWatchScreenNav wvm clicked mx my sw sh 1 =
      if wvm && clicked && isPointInRect (normMouse mx my sw sh).1
          (normMouse mx my sw sh).2 (-0.8) 0 0.1 0.1 then 0
      else if wvm && clicked && isPointInRect (normMouse mx my sw sh).1
          (normMouse mx my sw sh).2 0.8 0 0.1 0.1 then 2
      else 1) ∧
    (renderWatchScreenNav wvm clicked mx my sw sh 2 =
      if wvm && clicked && isPointInRect (normMouse mx my sw sh).1
          (normMouse mx my sw sh).2 (-0.8) 0 0.1 0.1 then 1 else 2) := by
  refine ⟨?_, ?_, ?_⟩
  · have hdisp : renderWatchScreenNav wvm clicked mx my sw sh 0 =
        drawClockScreenNav wvm clicked mx my sw sh 0 := by
      simp [renderWatchScreenNav]
    rw [hdisp, drawClockScreenNav]
    cases wvm <;> cases clicked <;> simp
  · have hdisp : renderWatchScreenNav wvm clicked mx my sw sh 1 =
        drawHeartRateScreenNav wvm clicked mx my sw sh 1 := by
      simp [renderWatchScreenNav]
    rw [hdisp, drawHeartRateScreenNav]
    cases wvm <;> cases clicked <;> simp
    cases hL : isPointInRect (normMouse mx my sw sh).1
        (normMouse mx my sw sh).2 (-0.8) 0 0.1 0.1 <;>
      cases hR : isPointInRect (normMouse mx my sw sh).1
          (normMouse mx my sw sh).2 0.8 0 0.1 0.1 <;>
      simp [hL, hR]
    exact (arrows_disjoint _ _ hL hR).elim
  · have hdisp : renderWatchScreenNav wvm clicked mx my sw sh 2 =
        drawBatteryScreenNav wvm clicked mx my sw sh 2 := by
      simp [renderWatchScreenNav]
    rw [hdisp, drawBatteryScreenNav]
    cases wvm <;> cases clicked <;> simp

/-- C6: the click flag is consumed exactly once per frame: after any frame
it equals whether new press events arrived during that frame's event poll,
independently of the pre-frame flag and of any screen transition; and a
click at the right-arrow position on the clock screen in watch-view mode
moves `currentScreen` to the heart-rate screen (1) exactly once in that
frame, never chaining to the battery screen, however many clicks queued
within the frame. -/
theorem click_flag_single_shot :
    (∀ (s : FrameState) (i : FrameInput),
      (frameStep s i).mouseClicked = decide (0 < i.clicksQueued)) ∧
    (∀ (q : ℕ),
      frameStep ⟨0, true⟩ ⟨true, 1080, 450, 1200, 900, q⟩ =
        ⟨1, decide (0 < q)⟩) := by
  constructor
  · intro s i
    simp only [frameStep]
    by_cases h : 0 < i.clicksQueued <;> simp [h]
  · intro q
    have hnav : renderWatchScreenNav true true 1080 450 1200 900 0 = 1 := by
      simp only [renderWatchScreenNav, drawClockScreenNav, normMouse,
        isPointInRect]
      norm_num
    simp only [frameStep, hnav]
    by_cases h : 0 < q <;> simp [h]

/-! Heart-rate invariants. -/

/-- One `updateHeartRate` step with `0 ≤ dt ≤ 1/2` preserves
`bpm ∈ [60, 220]`, `targetBpm ∈ [60, 220]` and `ekgOffset ∈ [0, 1]`. -/
theorem hr_step_inv (s : HRState) (run : Bool) (dt : ℚ) (r : ℕ)
    (hb1 : 60 ≤ s.bpm) (hb2 : s.bpm ≤ 220)
    (ht1 : 60 ≤ s.targetBpm) (ht2 : s.targetBpm ≤ 220)
    (ho1 : 0 ≤ s.ekgOffset) (ho2 : s.ekgOffset ≤ 1)
    (hdt0 : 0 ≤ dt) (hdt1 : dt ≤ 1/2) :
    60 ≤ (updateHeartRate s run dt r).bpm ∧
      (updateHeartRate s run dt r).bpm ≤ 220 ∧
      60 ≤ (updateHeartRate s run dt r).targetBpm ∧
      (updateHeartRate s run dt r).targetBpm ≤ 220 ∧
      0 ≤ (updateHeartRate s run dt r).ekgOffset ∧
      (updateHeartRate s run dt r).ekgOffset ≤ 1 := by
  have hr20 : ((r % 20 : ℕ) : ℚ) ≤ 19 := by
    have h2 : r % 20 ≤ 19 := by omega
    exact_mod_cast h2
  have hr0 : (0 : ℚ) ≤ ((r % 20 : ℕ) : ℚ) := by positivity
  have hTdef : (updateHeartRate s run dt r).targetBpm =
      (if run then min (s.targetBpm + 30 * dt) 220
       else max (s.targetBpm - 20 * dt) (60 + ((r % 20 : ℕ) : ℚ))) := by
    simp only [updateHeartRate]
  have hT1 : 60 ≤ (updateHeartRate s run dt r).targetBpm := by
    rw [hTdef]
    cases run
    · simp only [Bool.false_eq_true, if_false]
      exact le_trans (by linarith) (le_max_right _ _)
    · simp only [if_true]
      exact le_min (by linarith) (by norm_num)
  have hT2 : (updateHeartRate s run dt r).targetBpm ≤ 220 := by
    rw [hTdef]
    cases run
    · simp only [Bool.false_eq_true, if_false]
      exact max_le (by linarith) (by linarith)
    · simp only [if_true]
      exact min_le_right _ _
  set T := (updateHeartRate s run dt r).targetBpm with hT
  have hBdef : (updateHeartRate s run dt r).bpm =
      s.bpm + (T - s.bpm) * 2 * dt := by
    simp only [hT, updateHeartRate]
  have hB1 : 60 ≤ (updateHeartRate s run dt r).bpm := by
    rw [hBdef]
    nlinarith [mul_nonneg (sub_nonneg.mpr hb1)
        (by linarith : (0:ℚ) ≤ 1 - 2*dt),
      mul_nonneg (sub_nonneg.mpr hT1) (by linarith : (0:ℚ) ≤ 2*dt)]
  have hB2 : (updateHeartRate s run dt r).bpm ≤ 220 := by
    rw [hBdef]
    nlinarith [mul_nonneg (sub_nonneg.mpr hb2)
        (by linarith : (0:ℚ) ≤ 1 - 2*dt),
      mul_nonneg (sub_nonneg.mpr hT2) (by linarith : (0:ℚ) ≤ 2*dt)]
  set B := (updateHeartRate s run dt r).bpm with hB
  have hOdef : (updateHeartRate s run dt r).ekgOffset =
      (if s.ekgOffset + B / 60 * dt * (1/2) > 1
       then s.ekgOffset + B / 60 * dt * (1/2) - 1
       else s.ekgOffset + B / 60 * dt * (1/2)) := by
    simp only [hB, hT, updateHeartRate]
  have hq1 : (1 : ℚ) ≤ B / 60 := by
    rw [le_div_iff₀ (by norm_num : (0:ℚ) < 60)]
    linarith
  have hq2 : B / 60 ≤ 11/3 := by
    rw [div_le_iff₀ (by norm_num : (0:ℚ) < 60)]
    linarith
  have hinc0 : 0 ≤ B / 60 * dt * (1/2) :=
    mul_nonneg (mul_nonneg (by linarith) hdt0) (by norm_num)
  have hinc1 : B / 60 * dt * (1/2) ≤ 11/12 := by
    have hqd : B / 60 * dt ≤ 11/3 * (1/2) :=
      mul_le_mul hq2 hdt1 hdt0 (by norm_num)
    linarith
  have hO1 : 0 ≤ (updateHeartRate s run dt r).ekgOffset := by
    rw [hOdef]
    split
    · next h => linarith
    · next h => linarith
  have hO2 : (updateHeartRate s run dt r).ekgOffset ≤ 1 := by
    rw [hOdef]
    split
    · next h => linarith
    · next h => linarith [not_lt.mp h]
  exact ⟨hB1, hB2, hT1, hT2, hO1, hO2⟩

/-- The `hr_step_inv` invariant, folded over a whole call sequence. -/
theorem runHR_inv (calls : List (Bool × ℚ × ℕ)) :
    ∀ s : HRState, (∀ c ∈ calls, 0 ≤ c.2.1 ∧ c.2.1 ≤ 1/2) →
      60 ≤ s.bpm → s.bpm ≤ 220 → 60 ≤ s.targetBpm → s.targetBpm ≤ 220 →
      0 ≤ s.ekgOffset → s.ekgOffset ≤ 1 →
      60 ≤ (runHR s calls).bpm ∧ (runHR s calls).bpm ≤ 220 ∧
        60 ≤ (runHR s calls).targetBpm ∧
        (runHR s calls).targetBpm ≤ 220 ∧
        0 ≤ (runHR s calls).ekgOffset ∧ (runHR s calls).ekgOffset ≤ 1 := by
  induction calls with
  | nil =>
    intro s _ hb1 hb2 ht1 ht2 ho1 ho2
    exact ⟨hb1, hb2, ht1, ht2, ho1, ho2⟩
  | cons c cs ih =>
    intro s hdt hb1 hb2 ht1 ht2 ho1 ho2
    have hc := hdt c (List.mem_cons_self _ _)
    have step := hr_step_inv s c.1 c.2.1 c.2.2 hb1 hb2 ht1 ht2 ho1 ho2
      hc.1 hc.2
    have hrest : ∀ x ∈ cs, 0 ≤ x.2.1 ∧ x.2.1 ≤ 1/2 :=
      fun x hx => hdt x (List.mem_cons_of_mem _ hx)
    exact ih (updateHeartRate s c.1 c.2.1 c.2.2) hrest step.1 step.2.1
      step.2.2.1 step.2.2.2.1 step.2.2.2.2.1 step.2.2.2.2.2

/-- C1 counterexample: a single `updateHeartRate` call with the
nonnegative `deltaTime = 10`, starting from the initial state (where
`ekgOffset = 0`), leaves `ekgOffset = 1529/6`, outside `[0, 1)`: the
single `if (ekgOffset > 1.0f) ekgOffset -= 1.0f` cannot wrap a large
increment. -/
theorem ekgOffset_escapes_interval :
    ¬ (0 ≤ (runHR hrInit [(true, 10, 0)]).ekgOffset ∧
        (runHR hrInit [(true, 10, 0)]).ekgOffset < 1) := by
  have hval : (runHR hrInit [(true, 10, 0)]).ekgOffset = 1529/6 := by
    show (updateHeartRate hrInit true 10 0).ekgOffset = 1529/6
    simp only [updateHeartRate, hrInit, min_def, max_def]
    norm_num
  rw [hval]
  norm_num

/-- C1 (amended): for every finite sequence of `updateHeartRate` calls in
which each `deltaTime` lies in `[0, 1/2]` (in particular at the 75 Hz
frame cadence), starting from the initial state with `ekgOffset = 0`, the
EKG offset stays in the closed interval `[0, 1]` after every call (every
such sequence being a prefix of a longer one). -/
theorem ekgOffset_bounded_of_small_dt (calls : List (Bool × ℚ × ℕ))
    (hdt : ∀ c ∈ calls, 0 ≤ c.2.1 ∧ c.2.1 ≤ 1/2) :
    0 ≤ (runHR hrInit calls).ekgOffset ∧
      (runHR hrInit calls).ekgOffset ≤ 1 := by
  have h := runHR_inv calls hrInit hdt (by norm_num [hrInit])
    (by norm_num [hrInit]) (by norm_num [hrInit]) (by norm_num [hrInit])
    (by norm_num [hrInit]) (by norm_num [hrInit])
  exact ⟨h.2.2.2.2.1, h.2.2.2.2.2⟩

/-- Witness for `ekgOffset_bounded_of_small_dt` at a concrete two-call
sequence. -/
theorem ekgOffset_bounded_witness :
    0 ≤ (runHR hrInit [(true, 1/4, 0), (false, 1/2, 3)]).ekgOffset ∧
      (runHR hrInit [(true, 1/4, 0), (false, 1/2, 3)]).ekgOffset ≤ 1 :=
  ekgOffset_bounded_of_small_dt [(true, 1/4, 0), (false, 1/2, 3)]
    (by intro c hc; fin_cases hc <;> norm_num)

/-- One `updateHeartRate` step with nonnegative `deltaTime` keeps
`targetBpm` at or below 220. -/
theorem target_le_220_step (s : HRState) (run : Bool) (dt : ℚ) (r : ℕ)
    (ht : s.targetBpm ≤ 220) (hdt : 0 ≤ dt) :
    (updateHeartRate s run dt r).targetBpm ≤ 220 := by
  have hr20 : ((r % 20 : ℕ) : ℚ) ≤ 19 := by
    have h2 : r % 20 ≤ 19 := by omega
    exact_mod_cast h2
  have hTdef : (updateHeartRate s run dt r).targetBpm =
      (if run then min (s.targetBpm + 30 * dt) 220
       else max (s.targetBpm - 20 * dt) (60 + ((r % 20 : ℕ) : ℚ))) := by
    simp only [updateHeartRate]
  rw [hTdef]
  cases run
  · simp only [Bool.false_eq_true, if_false]
    exact max_le (by linarith) (by linarith)
  · simp only [if_true]
    exact min_le_right _ _

/-- The `target_le_220_step` bound, folded over a whole call sequence. -/
theorem runHR_target_le (calls : List (Bool × ℚ × ℕ)) :
    ∀ s : HRState, (∀ c ∈ calls, 0 ≤ c.2.1) → s.targetBpm ≤ 220 →
      (runHR s calls).targetBpm ≤ 220 := by
  induction calls with
  | nil => intro s _ ht; exact ht
  | cons c cs ih =>
    intro s hdt2 ht
    exact ih (updateHeartRate s c.1 c.2.1 c.2.2)
      (fun x hx => hdt2 x (List.mem_cons_of_mem _ hx))
      (target_le_220_step s c.1 c.2.1 c.2.2 ht
        (hdt2 c (List.mem_cons_self _ _)))

/-- C10: across every finite sequence of `updateHeartRate` calls with
nonnegative `deltaTime` and arbitrary running flags and `rand()` values,
starting from the initial state with `targetBpm = 70`, the target BPM
never exceeds 220 (every such sequence being a prefix of a longer one). -/
theorem targetBpm_le_220 (calls : List (Bool × ℚ × ℕ))
    (hdt : ∀ c ∈ calls, 0 ≤ c.2.1) :
    (runHR hrInit calls).targetBpm ≤ 220 :=
  runHR_target_le calls hrInit hdt (by norm_num [hrInit])

/-- Witness for `targetBpm_le_220` at a concrete one-call sequence. -/
theorem targetBpm_le_220_witness :
    (runHR hrInit [(true, 5, 0)]).targetBpm ≤ 220 :=
  targetBpm_le_220 [(true, 5, 0)]
    (by intro c hc; fin_cases hc; norm_num)

/-! Clock invariants. -/

/-- One `updateClock` call keeps all fields within their moduli. -/
theorem updateClock_in_range (s : ClockState) (t : ℚ)
    (hs : ClockInRange s) : ClockInRange (updateClock s t) := by
  obtain ⟨hs1, hs2, hs3, hs4, hs5, hs6⟩ := hs
  simp only [updateClock]
  split_ifs <;> refine ⟨?_, ?_, ?_, ?_, ?_, ?_⟩ <;> (try simp) <;> omega

/-- One `updateClock` call either leaves the state unchanged (less than
one second of accumulated real time) or advances the displayed time by
exactly one second, cascading seconds into minutes into hours modulo one
day. -/
theorem updateClock_cascade (s : ClockState) (t : ℚ)
    (hs : ClockInRange s) :
    (updateClock s t = s ∧ t - s.lastSecondTime < 1) ∨
      (1 ≤ t - s.lastSecondTime ∧
        clockTotalSeconds (updateClock s t) =
          (clockTotalSeconds s + 1) % 86400) := by
  obtain ⟨hs1, hs2, hs3, hs4, hs5, hs6⟩ := hs
  by_cases h : t - s.lastSecondTime ≥ 1
  · right
    refine ⟨h, ?_⟩
    simp only [updateClock, clockTotalSeconds]
    rw [if_pos h]
    split_ifs <;> simp <;> omega
  · left
    refine ⟨?_, by linarith [not_le.mp h]⟩
    simp only [updateClock]
    rw [if_neg h]

/-- The `updateClock_in_range` invariant, folded over a whole call
sequence. -/
theorem runClock_in_range (ds : List ℚ) :
    ∀ (s : ClockState) (now : ℚ), ClockInRange s →
      ClockInRange (runClock s now ds) := by
  induction ds with
  | nil => intro s now hs; exact hs
  | cons d ds ih =>
    intro s now hs
    exact ih (updateClock s (now + d)) (now + d)
      (updateClock_in_range s (now + d) hs)

/-- C3: for every sequence of `updateClock` calls whose elapsed-time
increments sum to at least 60 seconds, starting from in-range fields, the
fields remain in range (seconds and minutes 0-59, hours 0-23) after every
call, and every call either changes nothing (less than 1 s accumulated) or
cascades seconds into minutes into hours, advancing the displayed time by
exactly one second modulo 24 hours. -/
theorem clock_fields_in_range_and_cascade (s : ClockState) (now : ℚ)
    (ds : List ℚ) (hs : ClockInRange s) (_hsum : 60 ≤ ds.sum) :
    ClockInRange (runClock s now ds) ∧
      ∀ (s2 : ClockState) (t : ℚ), ClockInRange s2 →
        (updateClock s2 t = s2 ∧ t - s2.lastSecondTime < 1) ∨
          (1 ≤ t - s2.lastSecondTime ∧
            clockTotalSeconds (updateClock s2 t) =
              (clockTotalSeconds s2 + 1) % 86400) :=
  ⟨runClock_in_range ds s now hs, fun s2 t h => updateClock_cascade s2 t h⟩

/-- Witness for `clock_fields_in_range_and_cascade` at the in-range start
12:34:56 and a single 61-second increment. -/
theorem clock_fields_witness :
    ClockInRange (runClock ⟨12, 34, 56, 0⟩ 0 [61]) :=
  (clock_fields_in_range_and_cascade ⟨12, 34, 56, 0⟩ 0 [61]
    (by decide) (by norm_num [List.sum_cons, List.sum_nil])).1

/-! Battery invariants. -/

/-- One `updateBattery` call: the level never rises, never drops below 0,
and a decrement advances the drain timer by at least 10 seconds. -/
theorem updateBattery_step (s : BatteryState) (t : ℚ) :
    (updateBattery s t).batteryPercent ≤ s.batteryPercent ∧
      (0 ≤ s.batteryPercent → 0 ≤ (updateBattery s t).batteryPercent) ∧
      s.lastBatteryDrain ≤ (updateBattery s t).lastBatteryDrain ∧
      (((s.batteryPercent : ℚ) - ((updateBattery s t).batteryPercent : ℚ))
          * 10 ≤ (updateBattery s t).lastBatteryDrain -
            s.lastBatteryDrain) := by
  unfold updateBattery
  split_ifs with h
  · obtain ⟨h1, h2⟩ := h
    refine ⟨by simp, by intro h0; simp; omega, by simp; linarith, ?_⟩
    simp only
    push_cast
    linarith
  · exact ⟨le_refl _, fun h0 => h0, le_refl _, by simp⟩

/-- The `updateBattery_step` facts, folded over a whole call sequence. -/
theorem runBattery_props (ts : List ℚ) :
    ∀ s : BatteryState,
      (runBattery s ts).batteryPercent ≤ s.batteryPercent ∧
        (0 ≤ s.batteryPercent → 0 ≤ (runBattery s ts).batteryPercent) ∧
        s.lastBatteryDrain ≤ (runBattery s ts).lastBatteryDrain ∧
        (((s.batteryPercent : ℚ) - ((runBattery s ts).batteryPercent : ℚ))
            * 10 ≤ (runBattery s ts).lastBatteryDrain -
              s.lastBatteryDrain) := by
  induction ts with
  | nil =>
    intro s
    refine ⟨le_refl _, fun h => h, le_refl _, ?_⟩
    simp [runBattery]
  | cons t ts ih =>
    intro s
    have hstep := updateBattery_step s t
    have hrest := ih (updateBattery s t)
    have hrun : runBattery s (t :: ts) =
        runBattery (updateBattery s t) ts := by
      simp [runBattery]
    rw [hrun]
    refine ⟨le_trans hrest.1 hstep.1, fun h0 => hrest.2.1 (hstep.2.1 h0),
      le_trans hstep.2.2.1 hrest.2.2.1, ?_⟩
    have ha := hrest.2.2.2
    have hb := hstep.2.2.2
    linarith

/-- Closed form for the once-per-second drive of `updateBattery` from full
charge: after the call at `n` seconds (`n ≤ 1000`), the level is
`100 - n / 10` and the drain timer reads `10 * (n / 10)`. -/
theorem battery_seconds_closed_form (n : ℕ) (hn : n ≤ 1000) :
    runBattery ⟨100, 0⟩ (driveTimes n) =
      ⟨100 - ((n / 10 : ℕ) : ℤ), ((10 * (n / 10) : ℕ) : ℚ)⟩ := by
  induction n with
  | zero => simp [runBattery, driveTimes]
  | succ m ih =>
    have hm : m ≤ 1000 := by omega
    have hr : runBattery ⟨100, 0⟩ (driveTimes (m+1)) =
        updateBattery (runBattery ⟨100, 0⟩ (driveTimes m)) ((m : ℚ) + 1) := by
      unfold driveTimes
      rw [List.range_succ, List.map_append]
      simp [runBattery]
    rw [hr, ih hm]
    by_cases hdig : m % 10 = 9
    · have h1 : ((m : ℚ) + 1) - ((10 * (m / 10) : ℕ) : ℚ) ≥ 10 := by
        have he : (m + 1 : ℕ) = 10 * (m / 10) + 10 := by omega
        have hcast : ((m : ℚ) + 1) = (((10 * (m / 10) + 10 : ℕ)) : ℚ) := by
          exact_mod_cast congrArg (fun x : ℕ => (x : ℚ)) he
        rw [hcast]
        push_cast
        linarith
      have h2 : (100 : ℤ) - ((m / 10 : ℕ) : ℤ) > 0 := by omega
      have hcond : ((m : ℚ) + 1) -
          (⟨100 - ((m / 10 : ℕ) : ℤ), ((10 * (m / 10) : ℕ) : ℚ)⟩ :
            BatteryState).lastBatteryDrain ≥ 10 ∧
          (⟨100 - ((m / 10 : ℕ) : ℤ), ((10 * (m / 10) : ℕ) : ℚ)⟩ :
            BatteryState).batteryPercent > 0 := ⟨h1, h2⟩
      simp only [updateBattery, if_pos hcond]
      have hb : (100 : ℤ) - ((m / 10 : ℕ) : ℤ) - 1 =
          100 - (((m + 1) / 10 : ℕ) : ℤ) := by omega
      have hl : ((m : ℚ) + 1) = ((10 * ((m + 1) / 10) : ℕ) : ℚ) := by
        have he2 : (10 * ((m + 1) / 10) : ℕ) = m + 1 := by omega
        rw [he2]
        push_cast
        ring
      rw [BatteryState.mk.injEq]
      exact ⟨hb, hl⟩
    · have h1 : ¬ (((m : ℚ) + 1) - ((10 * (m / 10) : ℕ) : ℚ) ≥ 10) := by
        have he : (m + 1 : ℕ) < 10 * (m / 10) + 10 := by omega
        have hcast : ((m : ℚ) + 1) < (((10 * (m / 10) + 10 : ℕ)) : ℚ) := by
          exact_mod_cast he
        push_cast at hcast
        push_cast
        linarith
      have hcond : ¬ (((m : ℚ) + 1) -
          (⟨100 - ((m / 10 : ℕ) : ℤ), ((10 * (m / 10) : ℕ) : ℚ)⟩ :
            BatteryState).lastBatteryDrain ≥ 10 ∧
          (⟨100 - ((m / 10 : ℕ) : ℤ), ((10 * (m / 10) : ℕ) : ℚ)⟩ :
            BatteryState).batteryPercent > 0) := fun hc => h1 hc.1
      simp only [updateBattery, if_neg hcond]
      have hb : (100 : ℤ) - ((m / 10 : ℕ) : ℤ) =
          100 - (((m + 1) / 10 : ℕ) : ℤ) := by omega
      have hl : ((10 * (m / 10) : ℕ) : ℚ) =
          ((10 * ((m + 1) / 10) : ℕ) : ℚ) := by
        have he2 : (10 * (m / 10) : ℕ) = 10 * ((m + 1) / 10) := by omega
        rw [he2]
      rw [BatteryState.mk.injEq]
      exact ⟨hb, hl⟩

/-- C2 counterexample: driving `updateBattery` once per second from full
charge with the drain timer never externally reset, the battery reads 0
after 1000 seconds, not 90: one decrement per 10 s over 1000 s is 100
decrements, and the level floors at exactly 0. -/
theorem battery_after_1000s_ne_90 :
    (runBattery ⟨100, 0⟩ (driveTimes 1000)).batteryPercent ≠ 90 := by
  rw [battery_seconds_closed_form 1000 (le_refl _)]
  norm_num

/-- C2 (amended): with `updateBattery` called every elapsed second over
1000 seconds from full charge and the drain timer never externally reset,
the battery percent equals 0 at the end (one decrement per 10 s, floor at
0). -/
theorem battery_after_1000s_eq_zero :
    (runBattery ⟨100, 0⟩ (driveTimes 1000)).batteryPercent = 0 := by
  rw [battery_seconds_closed_form 1000 (le_refl _)]
  norm_num

/-- C4 counterexample: a single `updateBattery` call at time 20 (so 20
seconds of elapsed time) decrements the battery once, to 99, not the twice
(to `100 - 20/10 = 98`) demanded by one decrement per 10 seconds of
elapsed time: a sparse call schedule drains slower than elapsed time. -/
theorem battery_not_exactly_once_per_ten :
    (runBattery ⟨100, 0⟩ [20]).batteryPercent = 99 ∧
      (99 : ℤ) ≠ 100 - 20 / 10 := by
  constructor
  · show (updateBattery ⟨100, 0⟩ 20).batteryPercent = 99
    unfold updateBattery
    split_ifs with hc
    · rfl
    · exact absurd ⟨by norm_num, by norm_num⟩ hc
  · norm_num

/-- C4 (amended): across every sequence of `updateBattery` calls with
non-decreasing `currentTime`, the battery percent is non-increasing and
never goes below 0, and it decrements at most once per 10 seconds: every
decrement advances the drain timer to the call time and fires only when at
least 10 seconds have passed since the previous drain, so the total drop
times 10 never exceeds the drain-timer advance. -/
theorem battery_monotone_bounded_drain (s : BatteryState) (ts : List ℚ)
    (h0 : 0 ≤ s.batteryPercent) (_hmono : ts.Chain' (· ≤ ·)) :
    (runBattery s ts).batteryPercent ≤ s.batteryPercent ∧
      0 ≤ (runBattery s ts).batteryPercent ∧
      (((s.batteryPercent : ℚ) - ((runBattery s ts).batteryPercent : ℚ))
          * 10 ≤ (runBattery s ts).lastBatteryDrain -
            s.lastBatteryDrain) := by
  have h := runBattery_props ts s
  exact ⟨h.1, h.2.1 h0, h.2.2.2⟩

/-- Witness for `battery_monotone_bounded_drain` on the call times 5 and
12 from full charge. -/
theorem battery_monotone_witness :
    (runBattery ⟨100, 0⟩ [5, 12]).batteryPercent ≤ 100 ∧
      0 ≤ (runBattery ⟨100, 0⟩ [5, 12]).batteryPercent ∧
      (((100 : ℤ) : ℚ) -
          ((runBattery ⟨100, 0⟩ [5, 12]).batteryPercent : ℚ)) * 10 ≤
        (runBattery ⟨100, 0⟩ [5, 12]).lastBatteryDrain - 0 :=
  battery_monotone_bounded_drain ⟨100, 0⟩ [5, 12] (by norm_num)
    (by norm_num [List.chain'_cons, List.chain'_singleton])

/-! The 3-second running scenario (C8). -/

/-- One `updateHeartRate` step of the running scenario: `isRunning = true`
and `deltaTime = 1/60` (one 60 Hz frame); the `rand()` value is unused on
the running branch. -/
def hrRunStep (s : HRState) : HRState := updateHeartRate s true (1/60) 0

/-- The running scenario trajectory: `n` steps of `hrRunStep` from the
initial state `bpm = targetBpm = 70`. -/
def hrRunIter : ℕ → HRState
  | 0 => hrInit
  | n + 1 => hrRunStep (hrRunIter n)

theorem hrRunStep_target (s : HRState) :
    (hrRunStep s).targetBpm = min (s.targetBpm + 30 * (1/60)) 220 := rfl

theorem hrRunStep_bpm (s : HRState) :
    (hrRunStep s).bpm =
      s.bpm + (min (s.targetBpm + 30 * (1/60)) 220 - s.bpm) * 2 * (1/60) :=
  rfl

/-- A running step from a state with `bpm < targetBpm ≤ 220` strictly
increases the displayed BPM and preserves `bpm < targetBpm ≤ 220`. -/
theorem hr_step_mono (s : HRState) (h1 : s.bpm < s.targetBpm)
    (h2 : s.targetBpm ≤ 220) :
    s.bpm < (hrRunStep s).bpm ∧
      (hrRunStep s).bpm < (hrRunStep s).targetBpm ∧
      (hrRunStep s).targetBpm ≤ 220 := by
  have htgt : s.bpm < (hrRunStep s).targetBpm := by
    rw [hrRunStep_target]
    rcases le_or_lt (s.targetBpm + 30 * (1/60)) 220 with h | h
    · rw [min_eq_left h]; linarith
    · rw [min_eq_right (le_of_lt h)]; linarith
  have hbpm : (hrRunStep s).bpm =
      s.bpm + ((hrRunStep s).targetBpm - s.bpm) * 2 * (1/60) := by
    rw [hrRunStep_bpm, hrRunStep_target]
  refine ⟨?_, ?_, ?_⟩
  · rw [hbpm]; linarith
  · rw [hbpm]; linarith
  · rw [hrRunStep_target]; exact min_le_right _ _

/-- After each step of the running scenario, `bpm < targetBpm ≤ 220`. -/
theorem hrRunIter_inv (n : ℕ) :
    (hrRunIter (n + 1)).bpm < (hrRunIter (n + 1)).targetBpm ∧
      (hrRunIter (n + 1)).targetBpm ≤ 220 := by
  induction n with
  | zero =>
    constructor
    · show (hrRunStep hrInit).bpm < (hrRunStep hrInit).targetBpm
      rw [hrRunStep_bpm, hrRunStep_target]
      have h70 : (hrInit.targetBpm + 30 * (1/60)) ≤ 220 := by
        norm_num [hrInit]
      rw [min_eq_left h70]
      norm_num [hrInit]
    · show (hrRunStep hrInit).targetBpm ≤ 220
      rw [hrRunStep_target]
      exact min_le_right _ _
  | succ m ih =>
    have h := hr_step_mono (hrRunIter (m + 1)) ih.1 ih.2
    exact ⟨h.2.1, h.2.2⟩

/-- The displayed BPM strictly increases at every step of the running
scenario. -/
theorem hrRunIter_bpm_mono (n : ℕ) :
    (hrRunIter n).bpm < (hrRunIter (n + 1)).bpm := by
  cases n with
  | zero =>
    show hrInit.bpm < (hrRunStep hrInit).bpm
    rw [hrRunStep_bpm]
    have h70 : (hrInit.targetBpm + 30 * (1/60)) ≤ 220 := by
      norm_num [hrInit]
    rw [min_eq_left h70]
    norm_num [hrInit]
  | succ m =>
    have ih := hrRunIter_inv m
    exact (hr_step_mono (hrRunIter (m + 1)) ih.1 ih.2).1

/-- While the running ramp stays below the 220 clamp (`n ≤ 300`), the
target BPM after `n` steps is exactly `70 + n/2` (30 bpm/s at 1/60 s per
step). -/
theorem hrRunIter_target_formula (n : ℕ) (hn : n ≤ 300) :
    (hrRunIter n).targetBpm = 70 + (n : ℚ) / 2 := by
  induction n with
  | zero => norm_num [hrRunIter, hrInit]
  | succ m ih =>
    have hm : m ≤ 300 := by omega
    have hstep : (hrRunIter (m + 1)).targetBpm =
        min ((hrRunIter m).targetBpm + 30 * (1/60)) 220 :=
      hrRunStep_target (hrRunIter m)
    rw [hstep, ih hm]
    have hle : (70 : ℚ) + (m : ℚ) / 2 + 30 * (1/60) ≤ 220 := by
      have hc : ((m : ℚ)) + 1 ≤ 300 := by exact_mod_cast hn
      linarith
    rw [min_eq_left hle]
    push_cast
    ring

/-- C8: starting from `bpm = targetBpm = 70` and holding `isRunning` for
180 steps of `deltaTime = 1/60` (3 seconds on the heart-rate screen),
`targetBpm` ends at `min (70 + 90) 220 = 160`, while the displayed BPM
strictly increases at every one of the 180 steps yet stays below 160 at
the end. -/
theorem running_scenario_three_seconds :
    (hrRunIter 180).targetBpm = 160 ∧
      (hrRunIter 180).bpm < 160 ∧
      List.Chain' (fun a b : HRState => a.bpm < b.bpm)
        ((List.range 181).map hrRunIter) := by
  have htgt : (hrRunIter 180).targetBpm = 160 := by
    rw [hrRunIter_target_formula 180 (by norm_num)]
    norm_num
  refine ⟨htgt, ?_, ?_⟩
  · have h := hrRunIter_inv 179
    rw [show (179 : ℕ) + 1 = 180 from rfl] at h
    rw [htgt] at h
    exact h.1
  · rw [List.chain'_map, List.chain'_range_succ]
    intro m _
    exact hrRunIter_bpm_mono m

/-! Texture generation safety (C9). -/

theorem rawWrite_some (d : Array ℕ) (i v : ℕ) (hi : i < d.size) :
    ∃ d', rawWrite d i v = some d' ∧ d'.size = d.size := by
  unfold rawWrite
  rw [dif_pos hi]
  exact ⟨_, rfl, Array.size_set _ _ _⟩

theorem setPixel_some (w h : ℕ) (d : Array ℕ) (x y : ℤ) (r g b : ℕ)
    (hd : d.size = w * h * 4) :
    ∃ d', setPixel w h d x y r g b = some d' ∧ d'.size = w * h * 4 := by
  unfold setPixel
  split_ifs with hc
  · obtain ⟨h0x, hxw, h0y, hyh⟩ := hc
    have hx : x.toNat < w := by omega
    have hy : y.toNat < h := by omega
    have hq : y.toNat * w + x.toNat < w * h := by
      have h1 : y.toNat * w + x.toNat < (y.toNat + 1) * w := by
        rw [Nat.succ_mul]
        exact Nat.add_lt_add_left hx _
      have h2 : (y.toNat + 1) * w ≤ h * w :=
        Nat.mul_le_mul_right _ (by omega)
      calc y.toNat * w + x.toNat < (y.toNat + 1) * w := h1
        _ ≤ h * w := h2
        _ = w * h := Nat.mul_comm _ _
    have hidx : (y.toNat * w + x.toNat) * 4 + 3 < w * h * 4 := by omega
    obtain ⟨d1, e1, s1⟩ :=
      rawWrite_some d ((y.toNat * w + x.toNat) * 4) r (by omega)
    obtain ⟨d2, e2, s2⟩ :=
      rawWrite_some d1 ((y.toNat * w + x.toNat) * 4 + 1) g (by omega)
    obtain ⟨d3, e3, s3⟩ :=
      rawWrite_some d2 ((y.toNat * w + x.toNat) * 4 + 2) b (by omega)
    obtain ⟨d4, e4, s4⟩ :=
      rawWrite_some d3 ((y.toNat * w + x.toNat) * 4 + 3) 255 (by omega)
    refine ⟨d4, ?_, by omega⟩
    simp only [e1, Option.bind_eq_bind, Option.some_bind, e2, e3, e4]
  · exact ⟨d, rfl, hd⟩

theorem foldlM_size_inv {α : Type} (f : Array ℕ → α → Option (Array ℕ))
    (N : ℕ)
    (hf : ∀ d a, d.size = N → ∃ d', f d a = some d' ∧ d'.size = N) :
    ∀ (l : List α) (d : Array ℕ), d.size = N →
      ∃ d', l.foldlM f d = some d' ∧ d'.size = N := by
  intro l
  induction l with
  | nil => intro d hd; exact ⟨d, rfl, hd⟩
  | cons a l ih =>
    intro d hd
    obtain ⟨d1, h1, hs1⟩ := hf d a hd
    obtain ⟨d2, h2, hs2⟩ := ih d1 hs1
    refine ⟨d2, ?_, hs2⟩
    rw [List.foldlM_cons, h1]
    simpa using h2

theorem drawSegment_some (w h : ℕ) (offsetX : ℤ) (seg : ℕ)
    (d : Array ℕ) (hd : d.size = w * h * 4) :
    ∃ d', drawSegment w h offsetX seg d = some d' ∧
      d'.size = w * h * 4 := by
  have hf1 : ∀ (fx fy : ℕ → ℤ) (n : ℕ) (dd : Array ℕ),
      dd.size = w * h * 4 →
      ∃ d', (List.range n).foldlM
          (fun d2 i => setPixel w h d2 (fx i) (fy i) 200 230 255) dd =
        some d' ∧ d'.size = w * h * 4 :=
    fun fx fy n dd hdd => foldlM_size_inv _ _
      (fun d2 i h2 => setPixel_some w h d2 (fx i) (fy i) 200 230 255 h2)
      (List.range n) dd hdd
  rcases seg with _|_|_|_|_|_|_|s <;> simp only [drawSegment] <;>
    first
      | exact ⟨d, rfl, hd⟩
      | exact foldlM_size_inv _ _ (fun dd t hdd => hf1 _ _ _ dd hdd) _ d hd

theorem drawColon_some (w h : ℕ) (offsetX : ℤ) (d : Array ℕ)
    (hd : d.size = w * h * 4) :
    ∃ d', drawColon w h offsetX d = some d' ∧ d'.size = w * h * 4 := by
  unfold drawColon
  refine foldlM_size_inv _ _ (fun dd dy hdd => ?_) _ d hd
  refine foldlM_size_inv _ _ (fun d2 dx h2 => ?_) _ dd hdd
  obtain ⟨e1, he1, hs1⟩ := setPixel_some w h d2
    ((offsetX + (charWidth : ℤ) / 2) + (dx : ℤ) - ((4 / 2 : ℕ) : ℤ))
    ((h * 3 / 4 : ℕ) + (dy : ℤ) - ((4 / 2 : ℕ) : ℤ)) 200 230 255 h2
  obtain ⟨e2, he2, hs2⟩ := setPixel_some w h e1
    ((offsetX + (charWidth : ℤ) / 2) + (dx : ℤ) - ((4 / 2 : ℕ) : ℤ))
    ((h * 1 / 4 : ℕ) + (dy : ℤ) - ((4 / 2 : ℕ) : ℤ)) 200 230 255 hs1
  refine ⟨e2, ?_, hs2⟩
  simp only [he1, Option.bind_eq_bind, Option.some_bind, he2]

/-- C9: for every input string, `createDigitTexture` performs every pixel
write through the `setPixel` bounds check, and every store that passes the
check lands inside the allocated `width * height * 4`-byte buffer
(out-of-range coordinates are silently clipped): generation always
completes without undefined behaviour and returns a buffer of exactly the
allocated size. -/
theorem createDigitTexture_writes_in_bounds (digitStr : List Char) :
    ∃ buf, createDigitImage digitStr = some buf ∧
      buf.size = charWidth * digitStr.length * charHeight * 4 := by
  unfold createDigitImage
  refine foldlM_size_inv _ _ (fun dd i hdd => ?_) _ _ (by simp)
  simp only []
  split_ifs with h1 h2
  · exact drawColon_some _ _ _ dd hdd
  · refine foldlM_size_inv _ _ (fun d2 s h2 => ?_) _ dd hdd
    split_ifs with h3
    · exact drawSegment_some _ _ _ _ d2 h2
    · exact ⟨d2, rfl, h2⟩
  · exact ⟨dd, rfl, hdd⟩

end SmartWatch
